import Mathlib

/-!
Verification of the market-data pipeline core against its specification.

Each C++ component under `src/include` is shallowly embedded as Lean
definitions: machine integers (`size_t`, `uint64_t`) become `ℕ` with an
explicit `% 2^64` where wraparound is reachable, IEEE doubles become exact
rationals `ℚ` (the spec's "under exact arithmetic" reading; `std::sqrt`
results live in `ℝ`), and out-parameter/boolean returns become
`Option`/product returns.
-/

/-! ## SPSC queue (`src/include/md/spsc_queue.hpp`)

`SPSCQueue<T, N>` keeps two free-running `size_t` indices `head_`/`tail_`
and a ring buffer indexed by `index & (N-1)`.  `size_t` arithmetic wraps
modulo `2^64`, hence the explicit `% USIZE` on the incremented indices.
Only the sequential (single-thread) semantics is modelled; the atomics'
memory orders are irrelevant in that case. -/

/-- The modulus of `size_t` arithmetic (64-bit platform). -/
def USIZE : ℕ := 2 ^ 64

/-- State of `SPSCQueue<T, N>`: the two indices and the ring buffer.
The buffer is total on `ℕ`; the code only ever addresses `i &&& (N-1) < N`. -/
structure SPSCQueue (T : Type) (N : ℕ) where
  head : ℕ
  tail : ℕ
  buffer : ℕ → T

namespace SPSCQueue

/-- `MASK = N - 1` (line 21 of `spsc_queue.hpp`). -/
def MASK (N : ℕ) : ℕ := N - 1

variable {T : Type} {N : ℕ}

/-- A freshly constructed queue: `head_ = tail_ = 0`, buffer default-filled
with the default-constructed element `d`. -/
def init (d : T) : SPSCQueue T N :=
  ⟨0, 0, fun _ => d⟩

/-- `push` (lines 33-49): fails iff `(head+1) & MASK == tail & MASK`,
otherwise stores at `head & MASK` and publishes `head+1`.
Returns the `bool` result together with the successor state. -/
def push (q : SPSCQueue T N) (item : T) : Bool × SPSCQueue T N :=
  let head := q.head
  let tail := q.tail
  let next_head := (head + 1) % USIZE
  if next_head &&& MASK N = tail &&& MASK N then
    (false, q)
  else
    (true, ⟨next_head, tail, fun j => if j = head &&& MASK N then item else q.buffer j⟩)

/-- `pop` (lines 67-82): fails iff `tail & MASK == head & MASK`, otherwise
moves out `buffer_[tail & MASK]` and publishes `tail+1`.  The `bool` plus
out-parameter pair becomes an `Option T`. -/
def pop (q : SPSCQueue T N) : Option T × SPSCQueue T N :=
  let tail := q.tail
  let head := q.head
  if tail &&& MASK N = head &&& MASK N then
    (none, q)
  else
    (some (q.buffer (tail &&& MASK N)), ⟨head, (tail + 1) % USIZE, q.buffer⟩)

/-- `empty` (lines 91-93): the unmasked indices compared for equality. -/
def empty (q : SPSCQueue T N) : Bool :=
  q.head == q.tail

/-- `capacity` (lines 95-97): `N - 1`, one slot reserved. -/
def capacity (_q : SPSCQueue T N) : ℕ :=
  N - 1

end SPSCQueue

/-- One client operation on a queue. -/
inductive QueueOp (T : Type) where
  | push (x : T)
  | pop
deriving DecidableEq

/-- The observable outcome of one operation: the `bool` returned by `push`,
or the popped value (`none` when `pop` returned `false`). -/
inductive QueueObs (T : Type) where
  | pushed (ok : Bool)
  | popped (r : Option T)
deriving DecidableEq

/-- Run a sequence of operations against the C++ queue, collecting the
observations and the final state. -/
def runQueue {T : Type} {N : ℕ} (q : SPSCQueue T N) :
    List (QueueOp T) → List (QueueObs T) × SPSCQueue T N
  | [] => ([], q)
  | QueueOp.push x :: ops =>
      let r := q.push x
      let rest := runQueue r.2 ops
      (QueueObs.pushed r.1 :: rest.1, rest.2)
  | QueueOp.pop :: ops =>
      let r := q.pop
      let rest := runQueue r.2 ops
      (QueueObs.popped r.1 :: rest.1, rest.2)

/-- The abstract bounded FIFO of capacity `cap`: a list whose front is the
oldest not-yet-popped element.  A push appends at the back when the list is
not at capacity; a pop removes the front. -/
def runModel {T : Type} (cap : ℕ) (l : List T) :
    List (QueueOp T) → List (QueueObs T) × List T
  | [] => ([], l)
  | QueueOp.push x :: ops =>
      if l.length = cap then
        let rest := runModel cap l ops
        (QueueObs.pushed false :: rest.1, rest.2)
      else
        let rest := runModel cap (l ++ [x]) ops
        (QueueObs.pushed true :: rest.1, rest.2)
  | QueueOp.pop :: ops =>
      match l with
      | [] =>
          let rest := runModel cap ([] : List T) ops
          (QueueObs.popped none :: rest.1, rest.2)
      | y :: l' =>
          let rest := runModel cap l' ops
          (QueueObs.popped (some y) :: rest.1, rest.2)

namespace SPSCQueue

/-- Refinement relation: queue state `q` holds exactly the pending elements
`l`, oldest first, starting at slot `tail & MASK`. -/
structure Represents (q : SPSCQueue T N) (l : List T) : Prop where
  tail_lt : q.tail < USIZE
  head_eq : q.head = (q.tail + l.length) % USIZE
  len_lt : l.length < N
  buf : ∀ i (h : i < l.length), q.buffer ((q.tail + i) % N) = l.get ⟨i, h⟩

theorem and_mask_eq_mod (hpow : ∃ k, N = 2 ^ k) (x : ℕ) : x &&& MASK N = x % N := by
  obtain ⟨k, hk⟩ := hpow
  subst hk
  simpa [MASK] using Nat.and_pow_two_sub_one_eq_mod x k

theorem usize_pos : 0 < USIZE := by
  norm_num [USIZE]

theorem mod_usize_mod (hdvd : N ∣ USIZE) (a : ℕ) : a % USIZE % N = a % N :=
  Nat.mod_mod_of_dvd a hdvd

theorem mod_usize_add_mod (hdvd : N ∣ USIZE) (a b : ℕ) :
    (a % USIZE + b) % N = (a + b) % N :=
  ((Nat.mod_modEq a USIZE).of_dvd hdvd).add_right b

theorem represents_init (d : T) (hN : 0 < N) :
    Represents (init (N := N) d) ([] : List T) := by
  refine ⟨usize_pos, by simp [init, USIZE], by simp [hN], ?_⟩
  intro i h
  simp at h

theorem push_full (hpow : ∃ k, N = 2 ^ k) (hdvd : N ∣ USIZE)
    {q : SPSCQueue T N} {l : List T} (hr : Represents q l)
    (hlen : l.length = N - 1) (x : T) :
    q.push x = (false, q) := by
  have hN1 : 1 ≤ N := by
    obtain ⟨k, hk⟩ := hpow
    subst hk
    exact Nat.one_le_two_pow
  have hcond : ((q.head + 1) % USIZE) &&& MASK N = q.tail &&& MASK N := by
    rw [and_mask_eq_mod hpow, and_mask_eq_mod hpow, hr.head_eq, Nat.mod_add_mod,
      mod_usize_mod hdvd, hlen, show q.tail + (N - 1) + 1 = q.tail + N by omega,
      Nat.add_mod_right]
  simp [push, hcond]

theorem push_ok (hpow : ∃ k, N = 2 ^ k) (hdvd : N ∣ USIZE)
    {q : SPSCQueue T N} {l : List T} (hr : Represents q l)
    (hlen : l.length + 1 < N) (x : T) :
    (q.push x).1 = true ∧ Represents (q.push x).2 (l ++ [x]) := by
  have hN0 : 0 < N := lt_of_le_of_lt (Nat.zero_le _) hlen
  have hcond : ¬(((q.head + 1) % USIZE) &&& MASK N = q.tail &&& MASK N) := by
    rw [and_mask_eq_mod hpow, and_mask_eq_mod hpow, hr.head_eq, Nat.mod_add_mod,
      mod_usize_mod hdvd]
    intro hmod
    have hmod' : q.tail + (l.length + 1) ≡ q.tail + 0 [MOD N] := by
      simpa [Nat.ModEq, Nat.add_assoc] using hmod
    have hdvd1 : N ∣ l.length + 1 :=
      (Nat.modEq_zero_iff_dvd).1 (Nat.ModEq.add_left_cancel' q.tail hmod')
    have := Nat.le_of_dvd (Nat.succ_pos _) hdvd1
    omega
  have hslot : q.head &&& MASK N = (q.tail + l.length) % N := by
    rw [and_mask_eq_mod hpow, hr.head_eq, mod_usize_mod hdvd]
  have hpush : q.push x = (true,
      ⟨(q.head + 1) % USIZE, q.tail,
        fun j => if j = (q.tail + l.length) % N then x else q.buffer j⟩) := by
    simp only [push]
    rw [if_neg hcond, hslot]
  rw [hpush]
  refine ⟨rfl, ?_, ?_, ?_, ?_⟩
  · exact hr.tail_lt
  · simp only [List.length_append, List.length_cons, List.length_nil]
    rw [hr.head_eq, Nat.mod_add_mod, Nat.add_assoc]
  · simpa using hlen
  · intro i h
    simp only [List.length_append, List.length_nil, List.length_cons] at h
    rcases Nat.lt_or_ge i l.length with hi | hi
    · have hne : (q.tail + i) % N ≠ (q.tail + l.length) % N := by
        intro heq
        have hc : i ≡ l.length [MOD N] := Nat.ModEq.add_left_cancel' q.tail heq
        have hmod : i % N = l.length % N := hc
        rw [Nat.mod_eq_of_lt (lt_trans hi hr.len_lt),
          Nat.mod_eq_of_lt hr.len_lt] at hmod
        omega
      show (if (q.tail + i) % N = (q.tail + l.length) % N then x else _) = _
      rw [if_neg hne, hr.buf i hi]
      exact (List.get_append i hi).symm
    · have hi' : i = l.length := by omega
      subst hi'
      show (if (q.tail + l.length) % N = (q.tail + l.length) % N then x else _) = _
      rw [if_pos rfl]
      exact (List.get_of_append rfl rfl).symm

theorem pop_empty (hpow : ∃ k, N = 2 ^ k) (hdvd : N ∣ USIZE)
    {q : SPSCQueue T N} (hr : Represents q ([] : List T)) :
    q.pop = (none, q) := by
  have hcond : q.tail &&& MASK N = q.head &&& MASK N := by
    rw [and_mask_eq_mod hpow, and_mask_eq_mod hpow, hr.head_eq, mod_usize_mod hdvd]
    simp
  simp [pop, hcond]

theorem pop_ok (hpow : ∃ k, N = 2 ^ k) (hdvd : N ∣ USIZE)
    {q : SPSCQueue T N} {y : T} {l' : List T} (hr : Represents q (y :: l')) :
    (q.pop).1 = some y ∧ Represents (q.pop).2 l' := by
  have hlen : l'.length + 1 < N := by
    have := hr.len_lt
    simpa using this
  have hcond : ¬(q.tail &&& MASK N = q.head &&& MASK N) := by
    rw [and_mask_eq_mod hpow, and_mask_eq_mod hpow, hr.head_eq, mod_usize_mod hdvd]
    intro hmod
    have hmod' : q.tail + 0 ≡ q.tail + (l'.length + 1) [MOD N] := by
      simpa [Nat.ModEq, List.length_cons] using hmod
    have hdvd1 : N ∣ l'.length + 1 :=
      (Nat.modEq_zero_iff_dvd).1 (Nat.ModEq.add_left_cancel' q.tail hmod').symm
    have := Nat.le_of_dvd (Nat.succ_pos _) hdvd1
    omega
  have hval : q.buffer (q.tail &&& MASK N) = y := by
    rw [and_mask_eq_mod hpow]
    have := hr.buf 0 (by simp)
    simpa using this
  have hpop : q.pop = (some y, ⟨q.head, (q.tail + 1) % USIZE, q.buffer⟩) := by
    simp only [pop]
    rw [if_neg hcond, hval]
  rw [hpop]
  refine ⟨rfl, ?_, ?_, ?_, ?_⟩
  · exact Nat.mod_lt _ usize_pos
  · show q.head = ((q.tail + 1) % USIZE + l'.length) % USIZE
    rw [hr.head_eq, Nat.mod_add_mod]
    congr 1
    simp only [List.length_cons]
    omega
  · exact lt_trans (by simp) hr.len_lt
  · intro i h
    show q.buffer (((q.tail + 1) % USIZE + i) % N) = _
    rw [mod_usize_add_mod hdvd, Nat.add_assoc, Nat.add_comm 1 i]
    have := hr.buf (i + 1) (by simpa using Nat.succ_lt_succ h)
    simpa using this

theorem represents_empty_iff (hdvd : N ∣ USIZE) {q : SPSCQueue T N} {l : List T}
    (hr : Represents q l) : q.empty = true ↔ l = [] := by
  have hNle : N ≤ USIZE := Nat.le_of_dvd usize_pos hdvd
  constructor
  · intro h
    have hh : q.head = q.tail := by simpa [empty] using h
    by_contra hne
    have hlen : 0 < l.length := List.length_pos.2 hne
    have heq : q.tail = (q.tail + l.length) % USIZE := by
      have h' := hr.head_eq
      rw [hh] at h'
      exact h'
    have hmod : q.tail + 0 ≡ q.tail + l.length [MOD USIZE] := by
      simpa [Nat.ModEq, Nat.mod_eq_of_lt hr.tail_lt] using heq
    have hdvd2 : USIZE ∣ l.length :=
      Nat.modEq_zero_iff_dvd.1 (Nat.ModEq.add_left_cancel' _ hmod).symm
    have h1 := Nat.le_of_dvd hlen hdvd2
    have h2 : l.length < USIZE := lt_of_lt_of_le hr.len_lt hNle
    omega
  · rintro rfl
    have hh := hr.head_eq
    simp only [List.length_nil, Nat.add_zero] at hh
    rw [Nat.mod_eq_of_lt hr.tail_lt] at hh
    simp [empty, hh]

theorem runQueue_refines (hpow : ∃ k, N = 2 ^ k) (hdvd : N ∣ USIZE)
    (ops : List (QueueOp T)) :
    ∀ (q : SPSCQueue T N) (l : List T), Represents q l →
      (runQueue q ops).1 = (runModel (N - 1) l ops).1 ∧
      Represents (runQueue q ops).2 (runModel (N - 1) l ops).2 := by
  induction ops with
  | nil =>
    intro q l hr
    exact ⟨rfl, hr⟩
  | cons op ops ih =>
    intro q l hr
    cases op with
    | push x =>
      rcases Nat.lt_or_ge (l.length + 1) N with hlt | hge
      · have hp := push_ok hpow hdvd hr hlt x
        have hne : ¬l.length = N - 1 := by omega
        have hrec := ih (q.push x).2 (l ++ [x]) hp.2
        simp only [runQueue, runModel, if_neg hne]
        exact ⟨by rw [hp.1, hrec.1], hrec.2⟩
      · have hlen : l.length = N - 1 := by
          have := hr.len_lt
          omega
        have hp := push_full hpow hdvd hr hlen x
        have hrec := ih q l hr
        simp only [runQueue, runModel, if_pos hlen, hp]
        exact ⟨by rw [hrec.1], hrec.2⟩
    | pop =>
      cases l with
      | nil =>
        have hp := pop_empty hpow hdvd hr
        have hrec := ih q [] hr
        simp only [runQueue, runModel, hp]
        exact ⟨by rw [hrec.1], hrec.2⟩
      | cons y l' =>
        have hp := pop_ok hpow hdvd hr
        have hrec := ih (q.pop).2 l' hp.2
        simp only [runQueue, runModel]
        exact ⟨by rw [hp.1, hrec.1], hrec.2⟩

end SPSCQueue

theorem runModel_pushes {T : Type} (cap : ℕ) :
    ∀ (xs l : List T), l.length + xs.length ≤ cap →
      (runModel cap l (xs.map QueueOp.push)).1 =
        xs.map (fun _ => QueueObs.pushed true) ∧
      (runModel cap l (xs.map QueueOp.push)).2 = l ++ xs := by
  intro xs
  induction xs with
  | nil =>
    intro l h
    simp [runModel]
  | cons x xs ih =>
    intro l h
    simp only [List.map_cons, runModel]
    have hne : ¬l.length = cap := by
      simp only [List.length_cons] at h
      omega
    rw [if_neg hne]
    have hrec := ih (l ++ [x]) (by simp only [List.length_append, List.length_cons,
      List.length_nil, List.length_cons] at h ⊢; omega)
    simp [hrec.1, hrec.2]

/-- **C1.** For every sequence of push and pop calls executed sequentially on
an `SPSCQueue<T, N>` (N = 2^k as the code's static_asserts require, k ≤ 64
since N is a `size_t` value), the observable results coincide with those of
the abstract FIFO of capacity N−1: every successful pop returns the oldest
not-yet-popped pushed value, so pops deliver the pushed values in push order
with no duplicates or gaps, and the queue reports empty exactly when all
pushed values have been popped. -/
theorem claim_C1_spsc_fifo {T : Type} (k : ℕ) (_hk1 : 1 ≤ k) (hk64 : k ≤ 64)
    (d : T) (ops : List (QueueOp T)) :
    (runQueue (SPSCQueue.init (N := 2 ^ k) d) ops).1 =
      (runModel (2 ^ k - 1) [] ops).1 ∧
    ((runQueue (SPSCQueue.init (N := 2 ^ k) d) ops).2.empty = true ↔
      (runModel (2 ^ k - 1) ([] : List T) ops).2 = []) := by
  have hpow : ∃ j, 2 ^ k = 2 ^ j := ⟨k, rfl⟩
  have hdvd : 2 ^ k ∣ USIZE := pow_dvd_pow 2 hk64
  have h0 : 0 < 2 ^ k := Nat.pos_pow_of_pos k (by norm_num)
  have h := SPSCQueue.runQueue_refines hpow hdvd ops _ []
    (SPSCQueue.represents_init d h0)
  exact ⟨h.1, SPSCQueue.represents_empty_iff hdvd h.2⟩

/-- Witness for C1 at `N = 4`, checking the refinement on a concrete run
(two pushes, three pops) and evaluating the observed trace. -/
theorem claim_C1_spsc_fifo_witness :
    (1 ≤ 2 ∧ 2 ≤ 64) ∧
    ((runQueue (SPSCQueue.init (N := 2 ^ 2) (0 : ℕ))
        [QueueOp.push 7, QueueOp.push 8, QueueOp.pop, QueueOp.pop, QueueOp.pop]).1 =
      (runModel (2 ^ 2 - 1) []
        [QueueOp.push 7, QueueOp.push 8, QueueOp.pop, QueueOp.pop, QueueOp.pop]).1 ∧
     ((runQueue (SPSCQueue.init (N := 2 ^ 2) (0 : ℕ))
        [QueueOp.push 7, QueueOp.push 8, QueueOp.pop, QueueOp.pop, QueueOp.pop]).2.empty = true ↔
      (runModel (2 ^ 2 - 1) ([] : List ℕ)
        [QueueOp.push 7, QueueOp.push 8, QueueOp.pop, QueueOp.pop, QueueOp.pop]).2 = [])) ∧
    (runModel (2 ^ 2 - 1) ([] : List ℕ)
        [QueueOp.push 7, QueueOp.push 8, QueueOp.pop, QueueOp.pop, QueueOp.pop]).1 =
      [QueueObs.pushed true, QueueObs.pushed true, QueueObs.popped (some 7),
       QueueObs.popped (some 8), QueueObs.popped none] :=
  ⟨⟨by decide, by decide⟩,
   claim_C1_spsc_fifo 2 (by decide) (by decide) 0
    [QueueOp.push 7, QueueOp.push 8, QueueOp.pop, QueueOp.pop, QueueOp.pop],
   by decide⟩

/-- **C2.** Starting from the empty `SPSCQueue<T, 2^k>`, the first `2^k − 1`
pushes (no intervening pops) all return `true`, the `2^k`-th push returns
`false` and leaves the queue state unchanged, and `capacity()` returns
`2^k − 1`. -/
theorem claim_C2_capacity {T : Type} (k : ℕ) (_hk1 : 1 ≤ k) (hk64 : k ≤ 64)
    (d x : T) (xs : List T) (hlen : xs.length = 2 ^ k - 1) :
    (runQueue (SPSCQueue.init (N := 2 ^ k) d) (xs.map QueueOp.push)).1 =
      xs.map (fun _ => QueueObs.pushed true) ∧
    (runQueue (SPSCQueue.init (N := 2 ^ k) d) (xs.map QueueOp.push)).2.push x =
      (false, (runQueue (SPSCQueue.init (N := 2 ^ k) d) (xs.map QueueOp.push)).2) ∧
    (runQueue (SPSCQueue.init (N := 2 ^ k) d) (xs.map QueueOp.push)).2.capacity =
      2 ^ k - 1 := by
  have hpow : ∃ j, (2 : ℕ) ^ k = 2 ^ j := ⟨k, rfl⟩
  have hdvd : (2 : ℕ) ^ k ∣ USIZE := pow_dvd_pow 2 hk64
  have h0 : 0 < 2 ^ k := Nat.pos_pow_of_pos k (by norm_num)
  have h := SPSCQueue.runQueue_refines hpow hdvd (xs.map QueueOp.push) _ []
    (SPSCQueue.represents_init d h0)
  have hm := runModel_pushes (2 ^ k - 1) xs [] (by simp [hlen])
  have hfin : SPSCQueue.Represents
      (runQueue (SPSCQueue.init (N := 2 ^ k) d) (xs.map QueueOp.push)).2 xs := by
    have h2 := h.2
    rw [hm.2] at h2
    simpa using h2
  refine ⟨by rw [h.1, hm.1], ?_, rfl⟩
  exact SPSCQueue.push_full hpow hdvd hfin hlen x

/-- Witness for C2 at `N = 4` with the three pushed values 1, 2, 3 and a
fourth rejected push, also evaluating the observed trace. -/
theorem claim_C2_capacity_witness :
    (1 ≤ 2 ∧ 2 ≤ 64 ∧ ([1, 2, 3] : List ℕ).length = 2 ^ 2 - 1) ∧
    ((runQueue (SPSCQueue.init (N := 2 ^ 2) (0 : ℕ))
        ([1, 2, 3].map QueueOp.push)).1 =
      [1, 2, 3].map (fun _ => QueueObs.pushed true) ∧
     (runQueue (SPSCQueue.init (N := 2 ^ 2) (0 : ℕ))
        ([1, 2, 3].map QueueOp.push)).2.push 9 =
      (false, (runQueue (SPSCQueue.init (N := 2 ^ 2) (0 : ℕ))
        ([1, 2, 3].map QueueOp.push)).2) ∧
     (runQueue (SPSCQueue.init (N := 2 ^ 2) (0 : ℕ))
        ([1, 2, 3].map QueueOp.push)).2.capacity = 2 ^ 2 - 1) :=
  ⟨⟨by decide, by decide, by decide⟩,
   claim_C2_capacity 2 (by decide) (by decide) 0 9 [1, 2, 3] (by decide)⟩

/-! ## RollingStats (`src/include/stats/rolling_stats.hpp`)

Welford's online mean/variance.  IEEE doubles are modelled as exact
rationals (the claims' "under exact arithmetic" reading); `std::sqrt` and
the accessors built on it land in `ℝ`. -/

/-- State of `RollingStats`: `mean_`, `m2_` (sum of squared deviations) and
`count_`. -/
structure RollingStats where
  mean_ : ℚ
  m2_ : ℚ
  count_ : ℕ
deriving DecidableEq

namespace RollingStats

/-- Default-constructed `RollingStats`: all accumulators zero. -/
def initStats : RollingStats :=
  ⟨0, 0, 0⟩

/-- `add` (lines 18-24): `count_++`, `delta = value − mean_`,
`mean_ += delta / count_`, `delta2 = value − mean_`, `m2_ += delta·delta2`. -/
def add (s : RollingStats) (value : ℚ) : RollingStats :=
  let count := s.count_ + 1
  let delta := value - s.mean_
  let mean := s.mean_ + delta / (count : ℚ)
  let delta2 := value - mean
  ⟨mean, s.m2_ + delta * delta2, count⟩

/-- `reset` (lines 27-31). -/
def reset (_s : RollingStats) : RollingStats :=
  ⟨0, 0, 0⟩

/-- `mean()` accessor. -/
def mean (s : RollingStats) : ℚ :=
  s.mean_

/-- `count()` accessor. -/
def count (s : RollingStats) : ℕ :=
  s.count_

/-- `variance()` (lines 38-40): `count_ > 1 ? m2_ / (count_ − 1) : 0`. -/
def variance (s : RollingStats) : ℚ :=
  if 1 < s.count_ then s.m2_ / ((s.count_ - 1 : ℕ) : ℚ) else 0

/-- `population_variance()` (lines 43-45). -/
def population_variance (s : RollingStats) : ℚ :=
  if 0 < s.count_ then s.m2_ / (s.count_ : ℚ) else 0

/-- `std_dev()` (lines 48-50): `sqrt(variance())`. -/
noncomputable def std_dev (s : RollingStats) : ℝ :=
  Real.sqrt (s.variance : ℝ)

/-- `cv()` (lines 57-59): `mean_ != 0 ? std_dev() / |mean_| : 0`. -/
noncomputable def cv (s : RollingStats) : ℝ :=
  if s.mean_ ≠ 0 then s.std_dev / |(s.mean_ : ℝ)| else 0

/-- `z_score(value)` (lines 62-65): `sd > 0 ? (value − mean_) / sd : 0`. -/
noncomputable def z_score (s : RollingStats) (value : ℚ) : ℝ :=
  let sd := s.std_dev
  if 0 < sd then ((value : ℝ) - (s.mean_ : ℝ)) / sd else 0

/-- Feeding a whole sequence of observations, first element first. -/
def addList (l : List ℚ) : RollingStats :=
  l.foldl add initStats

theorem sum_sq_sub_const (c : ℚ) (l : List ℚ) :
    (l.map (fun x => (x - c) ^ 2)).sum =
      (l.map (fun x => x ^ 2)).sum - 2 * c * l.sum + l.length * c ^ 2 := by
  induction l with
  | nil => simp
  | cons y l ih =>
    simp only [List.map_cons, List.sum_cons, List.length_cons, ih]
    push_cast
    ring

theorem addList_state (l : List ℚ) :
    (addList l).count_ = l.length ∧
    (addList l).mean_ = l.sum / (l.length : ℚ) ∧
    (addList l).m2_ = (l.map (fun x => x ^ 2)).sum - l.sum ^ 2 / (l.length : ℚ) := by
  induction l using List.reverseRecOn with
  | nil => simp [addList, initStats]
  | append_singleton l x ih =>
    obtain ⟨hc, hm, h2⟩ := ih
    have hstep : addList (l ++ [x]) = (addList l).add x := by
      simp [addList, List.foldl_append]
    rcases List.eq_nil_or_concat l with hnil | _
    · subst hnil
      simp [addList, add, initStats]
    case _ =>
      rcases Nat.eq_zero_or_pos l.length with hn | hn
      · have : l = [] := List.length_eq_zero.1 hn
        subst this
        simp [addList, add, initStats]
      · have hne : (l.length : ℚ) ≠ 0 := by
          exact_mod_cast Nat.pos_iff_ne_zero.1 hn
        have hne1 : (l.length : ℚ) + 1 ≠ 0 := by positivity
        refine ⟨?_, ?_, ?_⟩
        · simp [hstep, add, hc]
        · simp only [hstep, add, hc, hm, List.sum_append, List.sum_cons,
            List.sum_nil, List.length_append, List.length_cons, List.length_nil]
          push_cast
          field_simp
          ring
        · simp only [hstep, add, hc, hm, h2, List.sum_append, List.sum_cons,
            List.sum_nil, List.length_append, List.length_cons, List.length_nil,
            List.map_append, List.map_cons, List.map_nil]
          push_cast
          field_simp
          ring

end RollingStats

/-- **C3.** After adding a finite sequence to a `RollingStats` (exact
arithmetic), `mean()` is the arithmetic mean, `variance()` is the sample
variance `Σ (xᵢ − mean)² / (n − 1)` for `n > 1`, and `variance() = 0` for
`n ≤ 1`. -/
theorem claim_C3_welford_mean_variance (l : List ℚ) :
    (RollingStats.addList l).mean = l.sum / (l.length : ℚ) ∧
    (2 ≤ l.length →
      (RollingStats.addList l).variance =
        (l.map (fun x => (x - (RollingStats.addList l).mean) ^ 2)).sum /
          ((l.length : ℚ) - 1)) ∧
    (l.length ≤ 1 → (RollingStats.addList l).variance = 0) := by
  obtain ⟨hc, hm, h2⟩ := RollingStats.addList_state l
  refine ⟨hm, ?_, ?_⟩
  · intro hlen
    have hn0 : (0 : ℚ) < (l.length : ℚ) := by
      exact_mod_cast lt_of_lt_of_le (by norm_num) hlen
    have hne : (l.length : ℚ) ≠ 0 := ne_of_gt hn0
    have hsum : (l.map (fun x => (x - (RollingStats.addList l).mean) ^ 2)).sum =
        (l.map (fun x => x ^ 2)).sum - l.sum ^ 2 / (l.length : ℚ) := by
      rw [RollingStats.mean, hm, RollingStats.sum_sq_sub_const]
      field_simp
      ring
    rw [RollingStats.variance,
      if_pos (show 1 < (RollingStats.addList l).count_ by omega), hc, h2, hsum,
      Nat.cast_sub (show 1 ≤ l.length by omega)]
    norm_num
  · intro hlen
    rw [RollingStats.variance, if_neg (show ¬1 < (RollingStats.addList l).count_ by omega)]

/-- Witness for C3 on the inputs 1, 2, 4: mean 7/3 and sample variance 7/3,
matching the direct formulas. -/
theorem claim_C3_welford_mean_variance_witness :
    (RollingStats.addList [1, 2, 4]).mean =
      ([1, 2, 4] : List ℚ).sum / (([1, 2, 4] : List ℚ).length : ℚ) ∧
    (RollingStats.addList [1, 2, 4]).variance =
      (([1, 2, 4] : List ℚ).map
        (fun x => (x - (RollingStats.addList [1, 2, 4]).mean) ^ 2)).sum /
        ((([1, 2, 4] : List ℚ).length : ℚ) - 1) ∧
    (RollingStats.addList [1, 2, 4]).mean = 7 / 3 ∧
    (RollingStats.addList [1, 2, 4]).variance = 7 / 3 :=
  ⟨(claim_C3_welford_mean_variance [1, 2, 4]).1,
   (claim_C3_welford_mean_variance [1, 2, 4]).2.1 (by decide),
   by norm_num [RollingStats.addList, RollingStats.add, RollingStats.initStats,
     RollingStats.mean],
   by norm_num [RollingStats.addList, RollingStats.add, RollingStats.initStats,
     RollingStats.variance]⟩

/-! ## RollingCovar (`src/include/stats/rolling_covar.hpp`)

Online bivariate comoment (Welford-style).  Doubles as exact rationals;
`correlation()` needs `std::sqrt` and lands in `ℝ`. -/

/-- State of `RollingCovar`. -/
structure RollingCovar where
  mean_x_ : ℚ
  mean_y_ : ℚ
  c_ : ℚ
  m2_x_ : ℚ
  m2_y_ : ℚ
  count_ : ℕ
deriving DecidableEq

namespace RollingCovar

/-- Default-constructed `RollingCovar`. -/
def initCovar : RollingCovar :=
  ⟨0, 0, 0, 0, 0, 0⟩

/-- `add(x, y)` (lines 20-35): update means with the pre-update deltas,
then the comoment and squared-deviation sums with the post-update means. -/
def add (s : RollingCovar) (x y : ℚ) : RollingCovar :=
  let count := s.count_ + 1
  let n : ℚ := (count : ℚ)
  let dx := x - s.mean_x_
  let dy := y - s.mean_y_
  let mean_x := s.mean_x_ + dx / n
  let mean_y := s.mean_y_ + dy / n
  ⟨mean_x, mean_y,
   s.c_ + dx * (y - mean_y),
   s.m2_x_ + dx * (x - mean_x),
   s.m2_y_ + dy * (y - mean_y),
   count⟩

/-- `reset` (lines 37-41). -/
def reset (_s : RollingCovar) : RollingCovar :=
  ⟨0, 0, 0, 0, 0, 0⟩

/-- `mean_x()` accessor. -/
def mean_x (s : RollingCovar) : ℚ :=
  s.mean_x_

/-- `mean_y()` accessor. -/
def mean_y (s : RollingCovar) : ℚ :=
  s.mean_y_

/-- `count()` accessor. -/
def count (s : RollingCovar) : ℕ :=
  s.count_

/-- `covariance()` (lines 49-51): sample covariance `c_ / (count_ − 1)`. -/
def covariance (s : RollingCovar) : ℚ :=
  if 1 < s.count_ then s.c_ / ((s.count_ - 1 : ℕ) : ℚ) else 0

/-- `variance_x()` (lines 59-61). -/
def variance_x (s : RollingCovar) : ℚ :=
  if 1 < s.count_ then s.m2_x_ / ((s.count_ - 1 : ℕ) : ℚ) else 0

/-- `variance_y()` (lines 63-65). -/
def variance_y (s : RollingCovar) : ℚ :=
  if 1 < s.count_ then s.m2_y_ / ((s.count_ - 1 : ℕ) : ℚ) else 0

/-- `correlation()` (lines 77-84): `0` when either variance is `≤ 0`,
otherwise `covariance / sqrt(var_x · var_y)`. -/
noncomputable def correlation (s : RollingCovar) : ℝ :=
  let var_x := s.variance_x
  let var_y := s.variance_y
  if var_x ≤ 0 ∨ var_y ≤ 0 then 0
  else (s.covariance : ℝ) / Real.sqrt ((var_x * var_y : ℚ) : ℝ)

/-- `beta()` (lines 87-90): `0` when `var_x ≤ 0`, else `covariance / var_x`. -/
def beta (s : RollingCovar) : ℚ :=
  if 0 < s.variance_x then s.covariance / s.variance_x else 0

/-- Feeding a whole sequence of pairs, first pair first. -/
def addPairs (l : List (ℚ × ℚ)) : RollingCovar :=
  l.foldl (fun s p => s.add p.1 p.2) initCovar

end RollingCovar

/-- **C4.** Adding the five pairs `(x, 2x+1)`, `x ∈ {1,…,5}`, to a
`RollingCovar` gives (exactly, in exact arithmetic) `mean_x = 3`,
`mean_y = 7`, `correlation = 1` and `beta = 2`. -/
theorem claim_C4_perfect_correlation :
    (RollingCovar.addPairs [(1, 3), (2, 5), (3, 7), (4, 9), (5, 11)]).mean_x = 3 ∧
    (RollingCovar.addPairs [(1, 3), (2, 5), (3, 7), (4, 9), (5, 11)]).mean_y = 7 ∧
    (RollingCovar.addPairs [(1, 3), (2, 5), (3, 7), (4, 9), (5, 11)]).correlation = 1 ∧
    (RollingCovar.addPairs [(1, 3), (2, 5), (3, 7), (4, 9), (5, 11)]).beta = 2 := by
  have hs : RollingCovar.addPairs [(1, 3), (2, 5), (3, 7), (4, 9), (5, 11)] =
      ⟨3, 7, 20, 10, 40, 5⟩ := by
    norm_num [RollingCovar.addPairs, RollingCovar.add, RollingCovar.initCovar]
  have hvx : (RollingCovar.addPairs [(1, 3), (2, 5), (3, 7), (4, 9), (5, 11)]).variance_x
      = 5 / 2 := by
    rw [hs]
    norm_num [RollingCovar.variance_x]
  have hvy : (RollingCovar.addPairs [(1, 3), (2, 5), (3, 7), (4, 9), (5, 11)]).variance_y
      = 10 := by
    rw [hs]
    norm_num [RollingCovar.variance_y]
  have hcov : (RollingCovar.addPairs [(1, 3), (2, 5), (3, 7), (4, 9), (5, 11)]).covariance
      = 5 := by
    rw [hs]
    norm_num [RollingCovar.covariance]
  refine ⟨by rw [hs]; rfl, by rw [hs]; rfl, ?_, ?_⟩
  · rw [RollingCovar.correlation]
    simp only [hvx, hvy, hcov]
    rw [if_neg (by norm_num)]
    rw [show ((5 / 2 * 10 : ℚ) : ℝ) = 5 ^ 2 by norm_num,
      Real.sqrt_sq (by norm_num : (0 : ℝ) ≤ 5)]
    norm_num
  · rw [RollingCovar.beta, if_pos (by rw [hvx]; norm_num), hcov, hvx]
    norm_num

/-- **C8.** The statistic accessors guard all divisions:
`correlation` is 0 when `var_x ≤ 0` or `var_y ≤ 0`, `beta` is 0 when
`var_x ≤ 0`, `z_score` is 0 when the standard deviation is not strictly
positive, `cv` is 0 when the mean is 0 — and in every other case each
returns exactly the stated quotient. -/
theorem claim_C8_division_guards (s : RollingCovar) (t : RollingStats) (v : ℚ) :
    (s.variance_x ≤ 0 ∨ s.variance_y ≤ 0 → s.correlation = 0) ∧
    (0 < s.variance_x ∧ 0 < s.variance_y →
      s.correlation =
        (s.covariance : ℝ) / Real.sqrt ((s.variance_x * s.variance_y : ℚ) : ℝ)) ∧
    (s.variance_x ≤ 0 → s.beta = 0) ∧
    (0 < s.variance_x → s.beta = s.covariance / s.variance_x) ∧
    (¬0 < t.std_dev → t.z_score v = 0) ∧
    (0 < t.std_dev → t.z_score v = ((v : ℝ) - (t.mean_ : ℝ)) / t.std_dev) ∧
    (t.mean_ = 0 → t.cv = 0) ∧
    (t.mean_ ≠ 0 → t.cv = t.std_dev / |(t.mean_ : ℝ)|) := by
  refine ⟨?_, ?_, ?_, ?_, ?_, ?_, ?_, ?_⟩
  · intro h
    rw [RollingCovar.correlation]
    simp only [if_pos h]
  · intro h
    rw [RollingCovar.correlation]
    rw [if_neg]
    push_neg
    exact ⟨h.1, h.2⟩
  · intro h
    rw [RollingCovar.beta, if_neg (not_lt.2 h)]
  · intro h
    rw [RollingCovar.beta, if_pos h]
  · intro h
    rw [RollingStats.z_score]
    simp only [if_neg h]
  · intro h
    rw [RollingStats.z_score]
    simp only [if_pos h]
  · intro h
    rw [RollingStats.cv, if_neg (by simp [h])]
  · intro h
    rw [RollingStats.cv, if_pos h]

/-- Witness for C8 on the freshly constructed accumulators (all variances
zero, mean zero: every guard takes its zero branch) and, for the positive
branch of `beta`, on the three pairs `(1,3)`, `(2,5)`, `(3,7)`. -/
theorem claim_C8_division_guards_witness :
    (RollingCovar.initCovar.variance_x ≤ 0 ∨ RollingCovar.initCovar.variance_y ≤ 0) ∧
    RollingCovar.initCovar.correlation = 0 ∧
    RollingStats.initStats.mean_ = 0 ∧
    RollingStats.initStats.cv = 0 ∧
    ¬0 < RollingStats.initStats.std_dev ∧
    RollingStats.initStats.z_score 1 = 0 ∧
    0 < (RollingCovar.addPairs [(1, 3), (2, 5), (3, 7)]).variance_x ∧
    (RollingCovar.addPairs [(1, 3), (2, 5), (3, 7)]).beta =
      (RollingCovar.addPairs [(1, 3), (2, 5), (3, 7)]).covariance /
        (RollingCovar.addPairs [(1, 3), (2, 5), (3, 7)]).variance_x := by
  have hx0 : RollingCovar.initCovar.variance_x ≤ 0 := by
    norm_num [RollingCovar.initCovar, RollingCovar.variance_x]
  have hsd : ¬0 < RollingStats.initStats.std_dev := by
    norm_num [RollingStats.initStats, RollingStats.std_dev, RollingStats.variance,
      Real.sqrt_zero]
  have hvx : 0 < (RollingCovar.addPairs [(1, 3), (2, 5), (3, 7)]).variance_x := by
    norm_num [RollingCovar.addPairs, RollingCovar.add, RollingCovar.initCovar,
      RollingCovar.variance_x]
  exact ⟨Or.inl hx0,
    (claim_C8_division_guards RollingCovar.initCovar RollingStats.initStats 1).1
      (Or.inl hx0),
    rfl,
    (claim_C8_division_guards RollingCovar.initCovar RollingStats.initStats 1).2.2.2.2.2.2.1
      rfl,
    hsd,
    (claim_C8_division_guards RollingCovar.initCovar RollingStats.initStats 1).2.2.2.2.1
      hsd,
    hvx,
    (claim_C8_division_guards (RollingCovar.addPairs [(1, 3), (2, 5), (3, 7)])
      RollingStats.initStats 1).2.2.2.1 hvx⟩

/-! ## Signal rules (`src/include/engine/signal_rules.hpp`)

Each rule's `evaluate` writes `signal_strength` through an out-parameter
and returns a `bool`; here it returns the pair `(fires, strength)`. -/

/-- State of `ZScoreRule`. -/
structure ZScoreRule where
  stats_ : RollingStats
  threshold_ : ℚ
  last_value_ : ℚ
  has_value_ : Bool

namespace ZScoreRule

/-- `ZScoreRule(threshold)` constructor (default threshold 2.0). -/
def mkRule (threshold : ℚ) : ZScoreRule :=
  ⟨RollingStats.initStats, threshold, 0, false⟩

/-- `add_observation` (lines 30-34). -/
def add_observation (r : ZScoreRule) (value : ℚ) : ZScoreRule :=
  ⟨r.stats_.add value, r.threshold_, value, true⟩

/-- `evaluate` (lines 36-44): below 10 observations (or without a last
value) report `(false, 0)`; otherwise the z-score of the last value and
`|z| ≥ threshold`. -/
noncomputable def evaluate (r : ZScoreRule) : Bool × ℝ :=
  if r.has_value_ = false ∨ r.stats_.count < 10 then (false, 0)
  else
    let strength := r.stats_.z_score r.last_value_
    (decide ((r.threshold_ : ℝ) ≤ |strength|), strength)

/-- `reset` (lines 46-50). -/
def reset (r : ZScoreRule) : ZScoreRule :=
  ⟨r.stats_.reset, r.threshold_, 0, false⟩

end ZScoreRule

/-- State of `VolumeRule`. -/
structure VolumeRule where
  volume_stats_ : RollingStats
  threshold_ : ℚ
  last_volume_ : ℚ
  has_volume_ : Bool

namespace VolumeRule

/-- `VolumeRule(threshold)` constructor (default threshold 3.0). -/
def mkRule (threshold : ℚ) : VolumeRule :=
  ⟨RollingStats.initStats, threshold, 0, false⟩

/-- `add_volume` (lines 171-175). -/
def add_volume (r : VolumeRule) (volume : ℚ) : VolumeRule :=
  ⟨r.volume_stats_.add volume, r.threshold_, volume, true⟩

/-- `evaluate` (lines 177-185): below 20 observations report `(false, 0)`;
otherwise the z-score of the last volume, firing only on the positive tail
`z ≥ threshold`. -/
noncomputable def evaluate (r : VolumeRule) : Bool × ℝ :=
  if r.has_volume_ = false ∨ r.volume_stats_.count < 20 then (false, 0)
  else
    let strength := r.volume_stats_.z_score r.last_volume_
    (decide ((r.threshold_ : ℝ) ≤ strength), strength)

/-- `reset` (lines 187-191). -/
def reset (r : VolumeRule) : VolumeRule :=
  ⟨r.volume_stats_.reset, r.threshold_, 0, false⟩

end VolumeRule

/-- State of `CorrelationBreakRule`.  `min_observations_` is a `double` in
the source, hence `ℚ` here. -/
structure CorrelationBreakRule where
  covar_ : RollingCovar
  correlation_threshold_ : ℚ
  min_observations_ : ℚ
  below_threshold_ : Bool

namespace CorrelationBreakRule

/-- `CorrelationBreakRule(corr_threshold, min_obs)` constructor
(defaults 0.3 and 50). -/
def mkRule (corr_threshold min_obs : ℚ) : CorrelationBreakRule :=
  ⟨RollingCovar.initCovar, corr_threshold, min_obs, false⟩

/-- `add_pair` (lines 72-74). -/
def add_pair (r : CorrelationBreakRule) (x y : ℚ) : CorrelationBreakRule :=
  ⟨r.covar_.add x y, r.correlation_threshold_, r.min_observations_, r.below_threshold_⟩

/-- `evaluate` (lines 76-87): below `min_observations_` pair observations
report `(false, 0)`; otherwise the correlation, firing when
`|ρ| < correlation_threshold_`. -/
noncomputable def evaluate (r : CorrelationBreakRule) : Bool × ℝ :=
  if (r.covar_.count : ℚ) < r.min_observations_ then (false, 0)
  else
    let corr := r.covar_.correlation
    (decide (|corr| < (r.correlation_threshold_ : ℝ)), corr)

/-- `reset` (lines 89-92). -/
def reset (r : CorrelationBreakRule) : CorrelationBreakRule :=
  ⟨r.covar_.reset, r.correlation_threshold_, r.min_observations_, false⟩

end CorrelationBreakRule

/-- **C5.** During warmup every rule reports `(fires, strength) = (false, 0)`:
`ZScoreRule` below 10 observations, `VolumeRule` below 20,
`CorrelationBreakRule` below `min_observations_` pair observations (50 by
default); and after `reset()` each rule's observation count is back to 0. -/
theorem claim_C5_warmup_gating (z : ZScoreRule) (v : VolumeRule)
    (c : CorrelationBreakRule) (hz : z.stats_.count < 10)
    (hv : v.volume_stats_.count < 20)
    (hc : (c.covar_.count : ℚ) < c.min_observations_) :
    z.evaluate = (false, 0) ∧ v.evaluate = (false, 0) ∧ c.evaluate = (false, 0) ∧
    z.reset.stats_.count = 0 ∧ v.reset.volume_stats_.count = 0 ∧
    c.reset.covar_.count = 0 := by
  refine ⟨?_, ?_, ?_, rfl, rfl, rfl⟩
  · rw [ZScoreRule.evaluate, if_pos (Or.inr hz)]
  · rw [VolumeRule.evaluate, if_pos (Or.inr hv)]
  · rw [CorrelationBreakRule.evaluate, if_pos hc]

/-- Witness for C5 on rules holding one observation each (thresholds at
their defaults 2.0 / 3.0 / (0.3, 50)). -/
theorem claim_C5_warmup_gating_witness :
    ((ZScoreRule.mkRule 2).add_observation 5).stats_.count < 10 ∧
    ((VolumeRule.mkRule 3).add_volume 7).volume_stats_.count < 20 ∧
    ((((CorrelationBreakRule.mkRule (3/10) 50).add_pair 1 5).covar_.count : ℚ) <
      ((CorrelationBreakRule.mkRule (3/10) 50).add_pair 1 5).min_observations_) ∧
    ((ZScoreRule.mkRule 2).add_observation 5).evaluate = (false, 0) ∧
    ((VolumeRule.mkRule 3).add_volume 7).evaluate = (false, 0) ∧
    ((CorrelationBreakRule.mkRule (3/10) 50).add_pair 1 5).evaluate = (false, 0) ∧
    ((ZScoreRule.mkRule 2).add_observation 5).reset.stats_.count = 0 := by
  have hz : ((ZScoreRule.mkRule 2).add_observation 5).stats_.count < 10 := by decide
  have hv : ((VolumeRule.mkRule 3).add_volume 7).volume_stats_.count < 20 := by decide
  have hc : ((((CorrelationBreakRule.mkRule (3/10) 50).add_pair 1 5).covar_.count : ℚ) <
      ((CorrelationBreakRule.mkRule (3/10) 50).add_pair 1 5).min_observations_) := by
    norm_num [CorrelationBreakRule.mkRule, CorrelationBreakRule.add_pair,
      RollingCovar.add, RollingCovar.initCovar, RollingCovar.count]
  have h := claim_C5_warmup_gating _ _ _ hz hv hc
  exact ⟨hz, hv, hc, h.1, h.2.1, h.2.2.1, h.2.2.2.2.2⟩

/-! ## LatencyHistogram (`src/include/util/latency.hpp`)

`uint64_t` counters become `ℕ` with `% 2^64` on every increment (the
modulus is the same `2^64` as `size_t`, reusing `USIZE`).  The
rate-calculation clock (`start_time_`, `timing_started_`) plays no role in
any claim and is omitted.  Doubles in `percentile_us` are exact rationals. -/

/-- `UINT64_MAX`, the initial value of `min_latency_us_`. -/
def UINT64_MAX : ℕ := 2 ^ 64 - 1

/-- `NUM_BUCKETS` (line 14). -/
def NUM_BUCKETS : ℕ := 10

/-- `BUCKET_EDGES` (lines 15-17); indices beyond 10 are never accessed. -/
def BUCKET_EDGES : ℕ → ℕ
  | 0 => 0
  | 1 => 50
  | 2 => 100
  | 3 => 250
  | 4 => 500
  | 5 => 1000
  | 6 => 2000
  | 7 => 5000
  | 8 => 10000
  | 9 => 50000
  | 10 => 1000000
  | _ + 11 => 0

/-- State of `LatencyHistogram`. -/
structure LatencyHistogram where
  buckets_ : ℕ → ℕ
  total_samples_ : ℕ
  total_latency_us_ : ℕ
  min_latency_us_ : ℕ
  max_latency_us_ : ℕ

namespace LatencyHistogram

/-- The state `reset()` establishes (and the constructor, which calls
`reset()`): buckets and totals zero, `min_latency_us_ = UINT64_MAX`. -/
def initHist : LatencyHistogram :=
  ⟨fun _ => 0, 0, 0, UINT64_MAX, 0⟩

/-- The bucket-search loop of `add_sample_us` (lines 49-55): `bucket`
starts at 0 and takes the first `i < NUM_BUCKETS` with
`latency_us < BUCKET_EDGES[i+1]`; when no edge matches it stays 0. -/
def findBucket (latency_us : ℕ) : ℕ :=
  match (List.range NUM_BUCKETS).find? (fun i => latency_us < BUCKET_EDGES (i + 1)) with
  | some i => i
  | none => 0

/-- `add_sample_us` (lines 42-73): bucket search, clamp, counter updates
and the min/max compare-and-update loops (sequentially: plain min/max). -/
def add_sample_us (h : LatencyHistogram) (latency_us : ℕ) : LatencyHistogram :=
  let bucket0 := findBucket latency_us
  let bucket := if NUM_BUCKETS ≤ bucket0 then NUM_BUCKETS - 1 else bucket0
  { buckets_ := fun i => if i = bucket then (h.buckets_ i + 1) % USIZE else h.buckets_ i
    total_samples_ := (h.total_samples_ + 1) % USIZE
    total_latency_us_ := (h.total_latency_us_ + latency_us) % USIZE
    min_latency_us_ :=
      if latency_us < h.min_latency_us_ then latency_us else h.min_latency_us_
    max_latency_us_ :=
      if h.max_latency_us_ < latency_us then latency_us else h.max_latency_us_ }

/-- `total_samples()` accessor. -/
def total_samples (h : LatencyHistogram) : ℕ :=
  h.total_samples_

/-- `mean_latency_us()` (lines 91-94). -/
def mean_latency_us (h : LatencyHistogram) : ℚ :=
  if 0 < h.total_samples_ then
    (h.total_latency_us_ : ℚ) / (h.total_samples_ : ℚ)
  else 0

/-- `min_latency_us()` (lines 96-99): reports 0 while no sample arrived. -/
def min_latency_us (h : LatencyHistogram) : ℕ :=
  if h.min_latency_us_ = UINT64_MAX then 0 else h.min_latency_us_

/-- `max_latency_us()` (lines 101-103). -/
def max_latency_us (h : LatencyHistogram) : ℕ :=
  h.max_latency_us_

/-- The cumulative scan of `percentile_us` (lines 113-127), one call per
loop iteration.  `prev_cumulative = cumulative - bucket_count` and
`target_count - prev_cumulative` are `uint64` subtractions; on every
reachable call they do not underflow, so `ℕ` subtraction coincides. -/
def percLoop (h : LatencyHistogram) (target : ℕ) (cum i : ℕ) : ℚ :=
  if hi : i < NUM_BUCKETS then
    let cum2 := cum + h.buckets_ i
    if target ≤ cum2 then
      let bucket_start : ℚ := (BUCKET_EDGES i : ℚ)
      let bucket_end : ℚ := (BUCKET_EDGES (i + 1) : ℚ)
      let bucket_count := h.buckets_ i
      if bucket_count = 0 then bucket_start
      else
        let prev_cumulative := cum2 - bucket_count
        let position : ℚ := ((target - prev_cumulative : ℕ) : ℚ) / (bucket_count : ℚ)
        bucket_start + position * (bucket_end - bucket_start)
    else percLoop h target cum2 (i + 1)
  else (BUCKET_EDGES NUM_BUCKETS : ℚ)
termination_by NUM_BUCKETS - i
decreasing_by simp only [NUM_BUCKETS] at hi ⊢; omega

/-- `percentile_us(p)` (lines 106-130): `0` on the empty histogram,
otherwise the cumulative scan for `target = ⌊total · p / 100⌋` with linear
interpolation inside the selected bucket. -/
def percentile_us (h : LatencyHistogram) (p : ℚ) : ℚ :=
  if h.total_samples_ = 0 then 0
  else
    let target : ℕ := (⌊(h.total_samples_ : ℚ) * p / 100⌋).toNat
    percLoop h target 0 0

/-- `p50_us()`. -/
def p50_us (h : LatencyHistogram) : ℚ :=
  h.percentile_us 50

/-- `p95_us()`. -/
def p95_us (h : LatencyHistogram) : ℚ :=
  h.percentile_us 95

/-- `p99_us()`. -/
def p99_us (h : LatencyHistogram) : ℚ :=
  h.percentile_us 99

/-- Feeding a whole sequence of samples. -/
def addSamples (l : List ℕ) : LatencyHistogram :=
  l.foldl add_sample_us initHist

end LatencyHistogram

/-- **C10.** A sample at or beyond the last bucket edge (`latency_us ≥
1 000 000`) matches no edge, so the bucket index stays 0 and the sample is
counted in the first bucket `[0, 50)` — not the last — while total, the
latency sum, min and max are still updated with the true value. -/
theorem claim_C10_overflow_sample_first_bucket (h : LatencyHistogram)
    (latency_us : ℕ) (hbig : 1000000 ≤ latency_us) :
    LatencyHistogram.findBucket latency_us = 0 ∧
    (h.add_sample_us latency_us).buckets_ 0 = (h.buckets_ 0 + 1) % USIZE ∧
    (∀ i, 1 ≤ i → i ≤ 9 → (h.add_sample_us latency_us).buckets_ i = h.buckets_ i) ∧
    (h.add_sample_us latency_us).total_samples_ = (h.total_samples_ + 1) % USIZE ∧
    (h.add_sample_us latency_us).total_latency_us_ =
      (h.total_latency_us_ + latency_us) % USIZE ∧
    (h.add_sample_us latency_us).min_latency_us_ =
      (if latency_us < h.min_latency_us_ then latency_us else h.min_latency_us_) ∧
    (h.add_sample_us latency_us).max_latency_us_ =
      (if h.max_latency_us_ < latency_us then latency_us else h.max_latency_us_) := by
  have hfind : LatencyHistogram.findBucket latency_us = 0 := by
    rw [LatencyHistogram.findBucket]
    have hnone : (List.range NUM_BUCKETS).find?
        (fun i => latency_us < BUCKET_EDGES (i + 1)) = none := by
      rw [List.find?_eq_none]
      intro i hi
      rw [List.mem_range] at hi
      simp only [decide_eq_true_eq]
      rw [NUM_BUCKETS] at hi
      interval_cases i <;> simp [BUCKET_EDGES] <;> omega
    rw [hnone]
  have hadd : h.add_sample_us latency_us =
      { buckets_ := fun i => if i = 0 then (h.buckets_ i + 1) % USIZE else h.buckets_ i
        total_samples_ := (h.total_samples_ + 1) % USIZE
        total_latency_us_ := (h.total_latency_us_ + latency_us) % USIZE
        min_latency_us_ :=
          if latency_us < h.min_latency_us_ then latency_us else h.min_latency_us_
        max_latency_us_ :=
          if h.max_latency_us_ < latency_us then latency_us else h.max_latency_us_ } := by
    rw [LatencyHistogram.add_sample_us]
    simp only [hfind]
    norm_num [NUM_BUCKETS]
  refine ⟨hfind, ?_, ?_, by rw [hadd], by rw [hadd], by rw [hadd], by rw [hadd]⟩
  · rw [hadd]
    simp
  · intro i h1 h9
    rw [hadd]
    have : ¬i = 0 := by omega
    simp [this]

/-- Witness for C10: a 1 000 000 µs sample into the fresh histogram lands
in bucket 0. -/
theorem claim_C10_overflow_sample_first_bucket_witness :
    1000000 ≤ 1000000 ∧
    (LatencyHistogram.initHist.add_sample_us 1000000).buckets_ 0 =
      (LatencyHistogram.initHist.buckets_ 0 + 1) % USIZE ∧
    (LatencyHistogram.initHist.add_sample_us 1000000).buckets_ 9 =
      LatencyHistogram.initHist.buckets_ 9 ∧
    (LatencyHistogram.initHist.add_sample_us 1000000).max_latency_us_ = 1000000 :=
  ⟨le_refl _,
   (claim_C10_overflow_sample_first_bucket LatencyHistogram.initHist 1000000
     (le_refl _)).2.1,
   (claim_C10_overflow_sample_first_bucket LatencyHistogram.initHist 1000000
     (le_refl _)).2.2.1 9 (by decide) (by decide),
   by decide⟩

namespace LatencyHistogram

theorem edges_mono : ∀ i < 11, ∀ j < 11, i ≤ j → BUCKET_EDGES i ≤ BUCKET_EDGES j := by
  decide

theorem percLoop_ge (h : LatencyHistogram) (t : ℕ) :
    ∀ d i cum, i + d = NUM_BUCKETS → (BUCKET_EDGES i : ℚ) ≤ percLoop h t cum i := by
  intro d
  induction d with
  | zero =>
    intro i cum hi
    rw [percLoop, dif_neg (by omega)]
    norm_num at hi ⊢
    rw [hi]
  | succ d ih =>
    intro i cum hi
    have hilt : i < NUM_BUCKETS := by omega
    have hedge : (BUCKET_EDGES i : ℚ) ≤ (BUCKET_EDGES (i + 1) : ℚ) := by
      have := edges_mono i (by rw [NUM_BUCKETS] at hilt; omega) (i + 1)
        (by rw [NUM_BUCKETS] at hilt; omega) (by omega)
      exact_mod_cast this
    rw [percLoop, dif_pos hilt]
    by_cases hstop : t ≤ cum + h.buckets_ i
    · rw [if_pos hstop]
      by_cases hzero : h.buckets_ i = 0
      · rw [if_pos hzero]
      · rw [if_neg hzero]
        have hpos : (0 : ℚ) ≤ ((t - (cum + h.buckets_ i - h.buckets_ i) : ℕ) : ℚ) /
            (h.buckets_ i : ℚ) := by positivity
        nlinarith [hpos, sub_nonneg.2 hedge,
          mul_nonneg hpos (sub_nonneg.2 hedge)]
    · rw [if_neg hstop]
      exact le_trans hedge (ih (i + 1) (cum + h.buckets_ i) (by omega))

theorem percLoop_mono (h : LatencyHistogram) {t1 t2 : ℕ} (ht : t1 ≤ t2) :
    ∀ d i cum, i + d = NUM_BUCKETS → percLoop h t1 cum i ≤ percLoop h t2 cum i := by
  intro d
  induction d with
  | zero =>
    intro i cum hi
    rw [percLoop, percLoop, dif_neg (by omega), dif_neg (by omega)]
  | succ d ih =>
    intro i cum hi
    have hilt : i < NUM_BUCKETS := by omega
    have hedge : (BUCKET_EDGES i : ℚ) ≤ (BUCKET_EDGES (i + 1) : ℚ) := by
      have := edges_mono i (by rw [NUM_BUCKETS] at hilt; omega) (i + 1)
        (by rw [NUM_BUCKETS] at hilt; omega) (by omega)
      exact_mod_cast this
    rw [percLoop, percLoop, dif_pos hilt, dif_pos hilt]
    by_cases h2 : t2 ≤ cum + h.buckets_ i
    · have h1 : t1 ≤ cum + h.buckets_ i := le_trans ht h2
      simp only [if_pos h1, if_pos h2, Nat.add_sub_cancel]
      by_cases hzero : h.buckets_ i = 0
      · simp only [if_pos hzero]
        exact le_refl _
      · simp only [if_neg hzero]
        have hcnt : (0 : ℚ) < (h.buckets_ i : ℚ) := by
          exact_mod_cast Nat.pos_of_ne_zero hzero
        have hsub : ((t1 - cum : ℕ) : ℚ) ≤ ((t2 - cum : ℕ) : ℚ) := by
          exact_mod_cast Nat.sub_le_sub_right ht _
        have hdiv : ((t1 - cum : ℕ) : ℚ) / (h.buckets_ i : ℚ) ≤
            ((t2 - cum : ℕ) : ℚ) / (h.buckets_ i : ℚ) :=
          (div_le_div_right hcnt).2 hsub
        nlinarith [hdiv, sub_nonneg.2 hedge]
    · simp only [if_neg h2]
      by_cases h1 : t1 ≤ cum + h.buckets_ i
      · simp only [if_pos h1, Nat.add_sub_cancel]
        refine le_trans ?_ (percLoop_ge h t2 d (i + 1) (cum + h.buckets_ i) (by omega))
        by_cases hzero : h.buckets_ i = 0
        · simp only [if_pos hzero]
          exact hedge
        · simp only [if_neg hzero]
          have hcnt : (0 : ℚ) < (h.buckets_ i : ℚ) := by
            exact_mod_cast Nat.pos_of_ne_zero hzero
          have hple : ((t1 - cum : ℕ) : ℚ) / (h.buckets_ i : ℚ) ≤ 1 := by
            rw [div_le_one hcnt]
            have hn : t1 - cum ≤ h.buckets_ i := by omega
            exact_mod_cast hn
          have hpos : (0 : ℚ) ≤ ((t1 - cum : ℕ) : ℚ) / (h.buckets_ i : ℚ) := by
            positivity
          nlinarith [sub_nonneg.2 hedge]
      · simp only [if_neg h1]
        exact ih (i + 1) (cum + h.buckets_ i) (by omega)

end LatencyHistogram

namespace LatencyHistogram

theorem percentile_us_mono (h : LatencyHistogram) {p1 p2 : ℚ} (h1 : 0 ≤ p1)
    (hp : p1 ≤ p2) : h.percentile_us p1 ≤ h.percentile_us p2 := by
  rw [percentile_us, percentile_us]
  by_cases h0 : h.total_samples_ = 0
  · rw [if_pos h0, if_pos h0]
  · rw [if_neg h0, if_neg h0]
    have harg : (h.total_samples_ : ℚ) * p1 / 100 ≤ (h.total_samples_ : ℚ) * p2 / 100 := by
      have hn : (0 : ℚ) ≤ (h.total_samples_ : ℚ) := Nat.cast_nonneg _
      gcongr
    have htarget : (⌊(h.total_samples_ : ℚ) * p1 / 100⌋).toNat ≤
        (⌊(h.total_samples_ : ℚ) * p2 / 100⌋).toNat :=
      Int.toNat_le_toNat (Int.floor_le_floor harg)
    exact percLoop_mono h htarget NUM_BUCKETS 0 0 (by rw [NUM_BUCKETS])

theorem add_sample_us_fields (h : LatencyHistogram) (a : ℕ) :
    (h.add_sample_us a).total_samples_ = (h.total_samples_ + 1) % USIZE ∧
    (h.add_sample_us a).total_latency_us_ = (h.total_latency_us_ + a) % USIZE ∧
    (h.add_sample_us a).min_latency_us_ =
      (if a < h.min_latency_us_ then a else h.min_latency_us_) ∧
    (h.add_sample_us a).max_latency_us_ =
      (if h.max_latency_us_ < a then a else h.max_latency_us_) := by
  refine ⟨rfl, rfl, rfl, rfl⟩

theorem addSamples_state (l : List ℕ) (hlen : l.length < USIZE) (hsum : l.sum < USIZE) :
    (addSamples l).total_samples_ = l.length ∧
    (addSamples l).total_latency_us_ = l.sum ∧
    (∀ x ∈ l, (addSamples l).min_latency_us_ ≤ x) ∧
    (∀ x ∈ l, x ≤ (addSamples l).max_latency_us_) := by
  induction l using List.reverseRecOn with
  | nil =>
    refine ⟨rfl, rfl, ?_, ?_⟩ <;> intro x hx <;> simp at hx
  | append_singleton l a ih =>
    have hlen' : l.length < USIZE := by
      simp only [List.length_append, List.length_cons, List.length_nil] at hlen
      omega
    have hsum' : l.sum < USIZE := by
      simp only [List.sum_append, List.sum_cons, List.sum_nil] at hsum
      omega
    obtain ⟨ht, hs, hmin, hmax⟩ := ih hlen' hsum'
    have hstep : addSamples (l ++ [a]) = (addSamples l).add_sample_us a := by
      simp [addSamples, List.foldl_append]
    obtain ⟨f1, f2, f3, f4⟩ := add_sample_us_fields (addSamples l) a
    refine ⟨?_, ?_, ?_, ?_⟩
    · rw [hstep, f1, ht, Nat.mod_eq_of_lt (by
        simp only [List.length_append, List.length_cons, List.length_nil] at hlen
        omega)]
      simp
    · rw [hstep, f2, hs, Nat.mod_eq_of_lt (by
        simp only [List.sum_append, List.sum_cons, List.sum_nil] at hsum
        omega)]
      simp
    · intro x hx
      rw [hstep, f3]
      rcases List.mem_append.1 hx with hxl | hxa
      · have := hmin x hxl
        split <;> omega
      · simp only [List.mem_cons, List.not_mem_nil, or_false] at hxa
        subst hxa
        split <;> omega
    · intro x hx
      rw [hstep, f4]
      rcases List.mem_append.1 hx with hxl | hxa
      · have := hmax x hxl
        split <;> omega
      · simp only [List.mem_cons, List.not_mem_nil, or_false] at hxa
        subst hxa
        split <;> omega

end LatencyHistogram

/-- **C9 (amended).** For any non-empty run of `add_sample_us` whose count
and latency sum stay below `2^64` (no counter wrap), the percentiles are
monotone, `p50 ≤ p95 ≤ p99`, and `min ≤ mean ≤ max`.  The original claim's
`p99 ≤ max` does not hold (see the counterexample): linear interpolation
inside a bucket can exceed the observed maximum. -/
theorem claim_C9_histogram_order (l : List ℕ) (hne : l ≠ [])
    (hlen : l.length < USIZE) (hsum : l.sum < USIZE) :
    (LatencyHistogram.addSamples l).p50_us ≤ (LatencyHistogram.addSamples l).p95_us ∧
    (LatencyHistogram.addSamples l).p95_us ≤ (LatencyHistogram.addSamples l).p99_us ∧
    ((LatencyHistogram.addSamples l).min_latency_us : ℚ) ≤
      (LatencyHistogram.addSamples l).mean_latency_us ∧
    (LatencyHistogram.addSamples l).mean_latency_us ≤
      ((LatencyHistogram.addSamples l).max_latency_us : ℚ) := by
  obtain ⟨ht, hs, hmin, hmax⟩ := LatencyHistogram.addSamples_state l hlen hsum
  have hn0 : 0 < l.length := List.length_pos.2 hne
  have htotpos : 0 < (LatencyHistogram.addSamples l).total_samples_ := by
    rw [ht]
    exact hn0
  have hnq : (0 : ℚ) < (l.length : ℚ) := by exact_mod_cast hn0
  refine ⟨?_, ?_, ?_, ?_⟩
  · exact LatencyHistogram.percentile_us_mono _ (by norm_num) (by norm_num)
  · exact LatencyHistogram.percentile_us_mono _ (by norm_num) (by norm_num)
  · rw [LatencyHistogram.mean_latency_us, if_pos htotpos,
      LatencyHistogram.min_latency_us]
    by_cases hM : (LatencyHistogram.addSamples l).min_latency_us_ = UINT64_MAX
    · rw [if_pos hM]
      push_cast
      positivity
    · rw [if_neg hM, ht, hs, le_div_iff hnq]
      have hb := List.card_nsmul_le_sum l
        ((LatencyHistogram.addSamples l).min_latency_us_) hmin
      rw [smul_eq_mul] at hb
      calc ((LatencyHistogram.addSamples l).min_latency_us_ : ℚ) * (l.length : ℚ)
          = ((l.length * (LatencyHistogram.addSamples l).min_latency_us_ : ℕ) : ℚ) := by
            push_cast
            ring
        _ ≤ (l.sum : ℚ) := by exact_mod_cast hb
  · rw [LatencyHistogram.mean_latency_us, if_pos htotpos, ht, hs, div_le_iff hnq]
    have hb := List.sum_le_card_nsmul l
      ((LatencyHistogram.addSamples l).max_latency_us_) hmax
    rw [smul_eq_mul] at hb
    calc ((l.sum : ℕ) : ℚ)
        ≤ ((l.length * (LatencyHistogram.addSamples l).max_latency_us_ : ℕ) : ℚ) := by
          exact_mod_cast hb
      _ = ((LatencyHistogram.addSamples l).max_latency_us : ℚ) * (l.length : ℚ) := by
          rw [LatencyHistogram.max_latency_us]
          push_cast
          ring

/-- Counterexample to C9 as stated: two 0 µs samples give `p99 = 25.0`
(interpolated inside bucket `[0, 50)`) while `max = 0`, so
`p99 ≤ max` fails. -/
theorem claim_C9_histogram_order_counterexample :
    (LatencyHistogram.addSamples [0, 0]).p99_us = 25 ∧
    (LatencyHistogram.addSamples [0, 0]).max_latency_us = 0 ∧
    ¬((LatencyHistogram.addSamples [0, 0]).p99_us ≤
      ((LatencyHistogram.addSamples [0, 0]).max_latency_us : ℚ)) := by
  have htot : (LatencyHistogram.addSamples [0, 0]).total_samples_ = 2 := by decide
  have hb0 : (LatencyHistogram.addSamples [0, 0]).buckets_ 0 = 2 := by decide
  have hmax : (LatencyHistogram.addSamples [0, 0]).max_latency_us = 0 := by decide
  have hp99 : (LatencyHistogram.addSamples [0, 0]).p99_us = 25 := by
    rw [LatencyHistogram.p99_us, LatencyHistogram.percentile_us, if_neg (by decide)]
    simp only [htot]
    have htarget : ((⌊((2 : ℕ) : ℚ) * 99 / 100⌋).toNat) = 1 := by norm_num
    rw [htarget, LatencyHistogram.percLoop, dif_pos (by norm_num [NUM_BUCKETS])]
    simp only [hb0]
    norm_num [BUCKET_EDGES]
  refine ⟨hp99, hmax, ?_⟩
  rw [hp99, hmax]
  norm_num

/-- Witness for the amended C9 on the two samples 10 µs and 20 µs. -/
theorem claim_C9_histogram_order_witness :
    (([10, 20] : List ℕ) ≠ [] ∧ ([10, 20] : List ℕ).length < USIZE ∧
      ([10, 20] : List ℕ).sum < USIZE) ∧
    ((LatencyHistogram.addSamples [10, 20]).p50_us ≤
      (LatencyHistogram.addSamples [10, 20]).p95_us ∧
     (LatencyHistogram.addSamples [10, 20]).p95_us ≤
      (LatencyHistogram.addSamples [10, 20]).p99_us ∧
     ((LatencyHistogram.addSamples [10, 20]).min_latency_us : ℚ) ≤
      (LatencyHistogram.addSamples [10, 20]).mean_latency_us ∧
     (LatencyHistogram.addSamples [10, 20]).mean_latency_us ≤
      ((LatencyHistogram.addSamples [10, 20]).max_latency_us : ℚ)) ∧
    (LatencyHistogram.addSamples [10, 20]).min_latency_us = 10 ∧
    (LatencyHistogram.addSamples [10, 20]).mean_latency_us = 15 ∧
    (LatencyHistogram.addSamples [10, 20]).max_latency_us = 20 :=
  ⟨⟨by decide, by decide, by decide⟩,
   claim_C9_histogram_order [10, 20] (by decide) (by decide) (by decide),
   by decide,
   by
    have htot : (LatencyHistogram.addSamples [10, 20]).total_samples_ = 2 := by decide
    have hsum : (LatencyHistogram.addSamples [10, 20]).total_latency_us_ = 30 := by
      decide
    rw [LatencyHistogram.mean_latency_us, if_pos (by rw [htot]; norm_num), htot, hsum]
    norm_num,
   by decide⟩

/-! ## Ticks, signal events and the Router
(`src/include/md/tick.hpp`, `src/include/engine/router.hpp`)

`std::string` / `std::string_view` become `String` (an empty view is `""`),
`std::chrono::steady_clock::time_point` becomes `ℕ`.  Calls to
`steady_clock::now()` are modelled by explicit clock-value parameters
threaded into the functions that perform them.  The Router model carries
exactly the state the CORRELATION_BREAK path reads or writes
(`watched_pairs_`, `correlation_rules_`, `latest_ticks_`,
`signal_counter_`, `correlation_threshold_`); the per-symbol z-score /
volume / mean-reversion rules never touch that path and never emit
CORRELATION_BREAK events.  `std::unordered_map` becomes an association
list with unique keys (lookup and overwrite-or-insert).  A signal callback
is assumed installed, so `emit_signal` never takes its early return. -/

/-- `Tick` (lines 17-45 of `tick.hpp`). -/
structure Tick where
  last_price : ℚ
  bid_price : ℚ
  ask_price : ℚ
  last_size : ℚ
  timestamp : ℕ
  symbol : String
  sequence_id : ℕ

/-- `SignalEvent::Type` (lines 77-83 of `tick.hpp`). -/
inductive SignalType where
  | Z_SCORE_BREAK
  | CORRELATION_BREAK
  | PAIR_TRADE_ENTRY
  | PAIR_TRADE_EXIT
  | VOLUME_SPIKE
deriving DecidableEq

/-- `SignalEvent` (lines 76-136 of `tick.hpp`). -/
structure SignalEvent where
  event_type : SignalType
  primary_symbol : String
  secondary_symbol : String
  signal_strength : ℝ
  confidence : ℝ
  event_time : ℕ
  generation_time : ℕ
  signal_id : ℕ

/-- The five-argument `SignalEvent` constructor (lines 111-119 of
`tick.hpp`): `event_time` is `steady_clock::now()` read at construction
(`now_c`), and `generation_time` is initialised to that same
`event_time`.  The tick's timestamp is not a parameter. -/
def SignalEvent.mkEvent (type : SignalType) (primary secondary : String)
    (strength conf : ℝ) (now_c : ℕ) : SignalEvent :=
  ⟨type, primary, secondary, strength, conf, now_c, now_c, 0⟩

/-- Association-list lookup, modelling `unordered_map::find`. -/
def alookup {α : Type} : List (String × α) → String → Option α
  | [], _ => none
  | (k, v) :: rest, key => if key = k then some v else alookup rest key

/-- Association-list overwrite-or-insert, modelling `map[key] = value`. -/
def ainsert {α : Type} : List (String × α) → String → α → List (String × α)
  | [], key, v => [(key, v)]
  | (k, w) :: rest, key, v =>
      if key = k then (key, v) :: rest else (k, w) :: ainsert rest key v

/-- The Router state the CORRELATION_BREAK path touches. -/
structure Router where
  correlation_rules_ : List (String × CorrelationBreakRule)
  watched_pairs_ : List (String × String)
  latest_ticks_ : List (String × Tick)
  signal_counter_ : ℕ
  correlation_threshold_ : ℚ

namespace Router

/-- A default-constructed Router (`correlation_threshold_{0.3}`). -/
def initRouter : Router :=
  ⟨[], [], [], 0, 3 / 10⟩

/-- `make_pair_key` (lines 239-242): `s1 < s2 ? s1+"|"+s2 : s2+"|"+s1`. -/
def make_pair_key (s1 s2 : String) : String :=
  if s1 < s2 then s1 ++ "|" ++ s2 else s2 ++ "|" ++ s1

/-- `add_watched_pair` (lines 64-71): append `(symbol1, symbol2)` in call
order; create the pair's rule under the canonical key with
`(correlation_threshold_, 50)`. -/
def add_watched_pair (r : Router) (symbol1 symbol2 : String) : Router :=
  let pair_key := make_pair_key symbol1 symbol2
  { r with
    watched_pairs_ := r.watched_pairs_ ++ [(symbol1, symbol2)]
    correlation_rules_ := ainsert r.correlation_rules_ pair_key
      (CorrelationBreakRule.mkRule r.correlation_threshold_ 50) }

/-- `emit_signal` (lines 221-237): build the event (construction reads the
clock, `now_c`), stamp `signal_id` from the counter, overwrite
`generation_time` with a second clock read (`now_g`), invoke the sink.
Returns the delivered event and the updated Router. -/
def emit_signal (r : Router) (type : SignalType) (primary secondary : String)
    (strength conf : ℝ) (now_c now_g : ℕ) : SignalEvent × Router :=
  let event0 := SignalEvent.mkEvent type primary secondary strength conf now_c
  let event := { event0 with
    signal_id := r.signal_counter_
    generation_time := now_g }
  (event, { r with signal_counter_ := (r.signal_counter_ + 1) % USIZE })

/-- The loop body of `process_cross_symbol_signals` (lines 193-218), one
call per watched pair: skip pairs not involving the tick's symbol or with
a missing side in `latest_ticks_`; otherwise add the pair observation and
emit CORRELATION_BREAK with `(symbol1, symbol2, strength, 0.88)` when the
rule fires.  (A missing rule would be undefined behaviour in the C++ —
`operator[]` on a map of null `unique_ptr` — and is unreachable for
registered pairs; the model skips it.) -/
noncomputable def processPairs (tick : Tick) (now_c now_g : ℕ) :
    Router → List (String × String) → List SignalEvent × Router
  | r, [] => ([], r)
  | r, (symbol1, symbol2) :: rest =>
      if symbol1 ≠ tick.symbol ∧ symbol2 ≠ tick.symbol then
        processPairs tick now_c now_g r rest
      else
        match alookup r.latest_ticks_ symbol1, alookup r.latest_ticks_ symbol2 with
        | some t1, some t2 =>
            let pair_key := make_pair_key symbol1 symbol2
            match alookup r.correlation_rules_ pair_key with
            | some rule =>
                let rule2 := rule.add_pair t1.last_price t2.last_price
                let r2 := { r with
                  correlation_rules_ := ainsert r.correlation_rules_ pair_key rule2 }
                let ev := rule2.evaluate
                if ev.1 then
                  let em := r2.emit_signal SignalType.CORRELATION_BREAK
                    symbol1 symbol2 ev.2 (88 / 100) now_c now_g
                  let rest2 := processPairs tick now_c now_g em.2 rest
                  (em.1 :: rest2.1, rest2.2)
                else
                  processPairs tick now_c now_g r2 rest
            | none => processPairs tick now_c now_g r rest
        | _, _ => processPairs tick now_c now_g r rest

/-- `process_cross_symbol_signals` (lines 189-219). -/
noncomputable def process_cross_symbol_signals (r : Router) (tick : Tick) (now_c now_g : ℕ) :
    List SignalEvent × Router :=
  processPairs tick now_c now_g r r.watched_pairs_

/-- The CORRELATION_BREAK-relevant steps of `process_tick` (lines 74-93):
step 2 updates `latest_ticks_[tick.symbol]` before any evaluation, step 5
runs the cross-symbol pass.  Steps 3-4 (single-symbol rules) cannot emit
CORRELATION_BREAK and touch none of the modelled state. -/
noncomputable def process_tick_cross (r : Router) (tick : Tick) (now_c now_g : ℕ) :
    List SignalEvent × Router :=
  let r1 := { r with latest_ticks_ := ainsert r.latest_ticks_ tick.symbol tick }
  process_cross_symbol_signals r1 tick now_c now_g

end Router

namespace Router

theorem processPairs_events (tick : Tick) (nc ng : ℕ) :
    ∀ (ps : List (String × String)) (r : Router),
      ∀ e ∈ (processPairs tick nc ng r ps).1,
        e.event_type = SignalType.CORRELATION_BREAK ∧
        (e.primary_symbol, e.secondary_symbol) ∈ ps := by
  intro ps
  induction ps with
  | nil =>
    intro r e he
    simp only [processPairs, List.not_mem_nil] at he
  | cons p rest ih =>
    intro r e he
    obtain ⟨symbol1, symbol2⟩ := p
    rw [processPairs] at he
    by_cases hskip : symbol1 ≠ tick.symbol ∧ symbol2 ≠ tick.symbol
    · rw [if_pos hskip] at he
      obtain ⟨h1, h2⟩ := ih r e he
      exact ⟨h1, List.mem_cons_of_mem _ h2⟩
    · rw [if_neg hskip] at he
      cases hl1 : alookup r.latest_ticks_ symbol1 with
      | none =>
        simp only [hl1] at he
        obtain ⟨h1, h2⟩ := ih r e he
        exact ⟨h1, List.mem_cons_of_mem _ h2⟩
      | some t1 =>
        simp only [hl1] at he
        cases hl2 : alookup r.latest_ticks_ symbol2 with
        | none =>
          simp only [hl2] at he
          obtain ⟨h1, h2⟩ := ih r e he
          exact ⟨h1, List.mem_cons_of_mem _ h2⟩
        | some t2 =>
          simp only [hl2] at he
          cases hrule : alookup r.correlation_rules_ (make_pair_key symbol1 symbol2) with
          | none =>
            simp only [hrule] at he
            obtain ⟨h1, h2⟩ := ih r e he
            exact ⟨h1, List.mem_cons_of_mem _ h2⟩
          | some rule =>
            simp only [hrule] at he
            by_cases hf : ((rule.add_pair t1.last_price t2.last_price).evaluate).1 = true
            · simp only [hf, if_true] at he
              rcases List.mem_cons.1 he with hel | her
              · subst hel
                exact ⟨rfl, List.mem_cons_self _ _⟩
              · obtain ⟨h1, h2⟩ := ih _ e her
                exact ⟨h1, List.mem_cons_of_mem _ h2⟩
            · simp only [Bool.not_eq_true] at hf
              simp only [hf, Bool.false_eq_true, if_false] at he
              obtain ⟨h1, h2⟩ := ih _ e he
              exact ⟨h1, List.mem_cons_of_mem _ h2⟩

end Router

/-- **C6 (amended).** Every CORRELATION_BREAK event emitted by the
cross-symbol pass carries the watched pair's symbols in their *registered*
order — `primary_symbol` is the first argument of `add_watched_pair` and
`secondary_symbol` the second — not in the canonical `min|max` order of
the pair key.  (See the counterexample: registering (B, A) emits primary
"B" even though "A" is lexicographically smaller.) -/
theorem claim_C6_pair_event_symbol_order (r : Router) (tick : Tick)
    (nc ng : ℕ) :
    ∀ e ∈ (r.process_tick_cross tick nc ng).1,
      e.event_type = SignalType.CORRELATION_BREAK ∧
      (e.primary_symbol, e.secondary_symbol) ∈ r.watched_pairs_ :=
  fun e he => Router.processPairs_events tick nc ng r.watched_pairs_ _ e he

/-! ### A concrete Router run

`add_watched_pair("B", "A")` followed by one tick of A (price 5) and fifty
ticks of B (price 1).  The correlation rule then holds fifty identical pair
observations `(1, 5)`, its y-variance is 0, so on the fiftieth B tick the
correlation is 0, the rule fires, and a CORRELATION_BREAK event is
emitted.  The emission clock reads are fixed at 7 (construction) and 9
(generation). -/

/-- An "A" tick at price 5, produced at time 3. -/
def tickA : Tick :=
  ⟨5, 5, 5, 1, 3, "A", 1⟩

/-- A "B" tick at price 1, produced at time 100. -/
def tickB : Tick :=
  ⟨1, 1, 1, 1, 100, "B", 2⟩

/-- The canonical key of the watched pair, `make_pair_key "B" "A"`. -/
def pairBA : String :=
  Router.make_pair_key "B" "A"

/-- The pair's rule after `k` identical observations `(1, 5)`. -/
def ruleBA (k : ℕ) : CorrelationBreakRule :=
  ⟨⟨1, 5, 0, 0, 0, k⟩, 3 / 10, 50, false⟩

/-- Router state after registering (B, A), one A tick and `k ≥ 1` B ticks
(while the rule is still warming up). -/
def routerBA (k : ℕ) : Router :=
  ⟨[(pairBA, ruleBA k)], [("B", "A")], [("A", tickA), ("B", tickB)], 0, 3 / 10⟩

/-- Router state after registering (B, A) and processing the single A
tick: its latest-tick table knows only "A" and the rule is untouched. -/
def routerA0 : Router :=
  ⟨[(pairBA, CorrelationBreakRule.mkRule (3 / 10) 50)], [("B", "A")],
   [("A", tickA)], 0, 3 / 10⟩

/-- The run: `routerSeq n` is the Router after `add_watched_pair("B","A")`,
`process` of the A tick, and `n` further `process` calls on B ticks. -/
noncomputable def routerSeq : ℕ → Router
  | 0 => ((Router.initRouter.add_watched_pair "B" "A").process_tick_cross tickA 7 9).2
  | n + 1 => ((routerSeq n).process_tick_cross tickB 7 9).2

theorem string_A_ne_B : ("A" : String) ≠ "B" := by
  decide

theorem string_B_ne_A : ("B" : String) ≠ "A" := by
  decide

theorem ruleBA_add_pair (k : ℕ) : (ruleBA k).add_pair 1 5 = ruleBA (k + 1) := by
  simp [ruleBA, CorrelationBreakRule.add_pair, RollingCovar.add]

theorem ruleBA_evaluate_warmup (m : ℕ) (hm : m < 50) :
    (ruleBA m).evaluate = (false, 0) := by
  rw [CorrelationBreakRule.evaluate, if_pos]
  show ((m : ℕ) : ℚ) < 50
  exact_mod_cast hm

theorem ruleBA_evaluate_fire : (ruleBA 50).evaluate = (true, 0) := by
  rw [CorrelationBreakRule.evaluate, if_neg (by norm_num [ruleBA, RollingCovar.count])]
  have hcorr : (ruleBA 50).covar_.correlation = 0 := by
    rw [RollingCovar.correlation]
    rw [if_pos]
    left
    norm_num [ruleBA, RollingCovar.variance_x]
  simp only [hcorr, Prod.mk.injEq]
  refine ⟨?_, trivial⟩
  rw [decide_eq_true_eq]
  norm_num [ruleBA]

theorem process_tick_cross_eq (r : Router) (tick : Tick) (nc ng : ℕ) :
    r.process_tick_cross tick nc ng =
      Router.processPairs tick nc ng
        { r with latest_ticks_ := ainsert r.latest_ticks_ tick.symbol tick }
        r.watched_pairs_ :=
  rfl

theorem run_stepA :
    (Router.initRouter.add_watched_pair "B" "A").process_tick_cross tickA 7 9 =
      ([], routerA0) := by
  rw [process_tick_cross_eq]
  have hr1 : ({ Router.initRouter.add_watched_pair "B" "A" with
      latest_ticks_ := ainsert (Router.initRouter.add_watched_pair "B" "A").latest_ticks_
        tickA.symbol tickA } : Router) =
      ⟨[(pairBA, CorrelationBreakRule.mkRule (3 / 10) 50)], [("B", "A")],
        [("A", tickA)], 0, 3 / 10⟩ := by
    simp [Router.add_watched_pair, Router.initRouter, ainsert, tickA, pairBA]
  have hwp : (Router.initRouter.add_watched_pair "B" "A").watched_pairs_ = [("B", "A")] := by
    simp [Router.add_watched_pair, Router.initRouter]
  rw [hr1, hwp, Router.processPairs]
  rw [if_neg (by simp [tickA, string_B_ne_A])]
  have hl : alookup [("A", tickA)] "B" = none := by
    simp [alookup, string_B_ne_A]
  simp only [hl]
  rw [Router.processPairs]
  rw [routerA0]

theorem routerBA_step_state (k : ℕ) :
    ({ routerBA k with
      latest_ticks_ := ainsert (routerBA k).latest_ticks_ tickB.symbol tickB } : Router) =
    routerBA k := by
  simp [routerBA, ainsert, tickB, string_B_ne_A]

theorem run_stepB_warm (k : ℕ) (hk : k + 1 < 50) :
    (routerBA k).process_tick_cross tickB 7 9 = ([], routerBA (k + 1)) := by
  rw [process_tick_cross_eq, routerBA_step_state]
  have hwp : (routerBA k).watched_pairs_ = [("B", "A")] := rfl
  rw [hwp, Router.processPairs]
  rw [if_neg (by simp [tickB])]
  have hl1 : alookup (routerBA k).latest_ticks_ "B" = some tickB := by
    simp [routerBA, alookup, string_B_ne_A]
  have hl2 : alookup (routerBA k).latest_ticks_ "A" = some tickA := by
    simp [routerBA, alookup]
  simp only [hl1, hl2]
  have hrule : alookup (routerBA k).correlation_rules_ (Router.make_pair_key "B" "A") =
      some (ruleBA k) := by
    simp [routerBA, alookup, pairBA]
  simp only [hrule]
  have hadd : (ruleBA k).add_pair tickB.last_price tickA.last_price = ruleBA (k + 1) := by
    rw [show tickB.last_price = 1 from rfl, show tickA.last_price = 5 from rfl,
      ruleBA_add_pair]
  simp only [hadd, ruleBA_evaluate_warmup (k + 1) hk]
  simp only [Bool.false_eq_true, if_false]
  rw [Router.processPairs]
  simp [routerBA, ainsert, pairBA]

theorem run_step1 : routerA0.process_tick_cross tickB 7 9 = ([], routerBA 1) := by
  rw [process_tick_cross_eq]
  have hr1 : ({ routerA0 with
      latest_ticks_ := ainsert routerA0.latest_ticks_ tickB.symbol tickB } : Router) =
      ⟨[(pairBA, CorrelationBreakRule.mkRule (3 / 10) 50)], [("B", "A")],
        [("A", tickA), ("B", tickB)], 0, 3 / 10⟩ := by
    simp [routerA0, ainsert, tickB, string_B_ne_A]
  rw [hr1]
  have hwp : routerA0.watched_pairs_ = [("B", "A")] := rfl
  rw [hwp, Router.processPairs]
  rw [if_neg (by simp [tickB])]
  have hl1 : alookup [("A", tickA), ("B", tickB)] "B" = some tickB := by
    simp [alookup, string_B_ne_A]
  have hl2 : alookup [("A", tickA), ("B", tickB)] "A" = some tickA := by
    simp [alookup]
  simp only [hl1, hl2]
  have hrule : alookup [(pairBA, CorrelationBreakRule.mkRule (3 / 10) 50)]
      (Router.make_pair_key "B" "A") = some (CorrelationBreakRule.mkRule (3 / 10) 50) := by
    simp [alookup, pairBA]
  simp only [hrule]
  have hadd : (CorrelationBreakRule.mkRule (3 / 10) 50).add_pair tickB.last_price
      tickA.last_price = ruleBA 1 := by
    norm_num [CorrelationBreakRule.mkRule, CorrelationBreakRule.add_pair,
      RollingCovar.add, RollingCovar.initCovar, ruleBA, tickA, tickB]
  simp only [hadd, ruleBA_evaluate_warmup 1 (by norm_num)]
  simp only [Bool.false_eq_true, if_false]
  rw [Router.processPairs]
  simp [routerBA, ainsert, pairBA]

/-- The CORRELATION_BREAK event the run emits: symbols in registered order
("B" first), strength 0, confidence 0.88, `event_time` and
`generation_time` from the two emission clock reads 7 and 9, id 0. -/
noncomputable def evBA : SignalEvent :=
  ⟨SignalType.CORRELATION_BREAK, "B", "A", 0, 88 / 100, 7, 9, 0⟩

theorem run_stepB_fire :
    (routerBA 49).process_tick_cross tickB 7 9 =
      ([evBA], ⟨[(pairBA, ruleBA 50)], [("B", "A")],
        [("A", tickA), ("B", tickB)], 1, 3 / 10⟩) := by
  rw [process_tick_cross_eq, routerBA_step_state]
  have hwp : (routerBA 49).watched_pairs_ = [("B", "A")] := rfl
  rw [hwp, Router.processPairs]
  rw [if_neg (by simp [tickB])]
  have hl1 : alookup (routerBA 49).latest_ticks_ "B" = some tickB := by
    simp [routerBA, alookup, string_B_ne_A]
  have hl2 : alookup (routerBA 49).latest_ticks_ "A" = some tickA := by
    simp [routerBA, alookup]
  simp only [hl1, hl2]
  have hrule : alookup (routerBA 49).correlation_rules_ (Router.make_pair_key "B" "A") =
      some (ruleBA 49) := by
    simp [routerBA, alookup, pairBA]
  simp only [hrule]
  have hadd : (ruleBA 49).add_pair tickB.last_price tickA.last_price = ruleBA 50 := by
    rw [show tickB.last_price = 1 from rfl, show tickA.last_price = 5 from rfl,
      ruleBA_add_pair]
  simp only [hadd, ruleBA_evaluate_fire]
  simp only [if_true]
  rw [Router.processPairs]
  simp only [Router.emit_signal, SignalEvent.mkEvent]
  refine Prod.ext ?_ ?_
  · show [(⟨SignalType.CORRELATION_BREAK, "B", "A", 0, 88 / 100, 7, 9,
      (routerBA 49).signal_counter_⟩ : SignalEvent)] = [evBA]
    rfl
  · show (⟨ainsert (routerBA 49).correlation_rules_ (Router.make_pair_key "B" "A")
        (ruleBA 50), (routerBA 49).watched_pairs_, (routerBA 49).latest_ticks_,
        ((routerBA 49).signal_counter_ + 1) % USIZE,
        (routerBA 49).correlation_threshold_⟩ : Router) = _
    have hins : ainsert (routerBA 49).correlation_rules_ (Router.make_pair_key "B" "A")
        (ruleBA 50) = [(pairBA, ruleBA 50)] := by
      simp [routerBA, ainsert, pairBA]
    rw [hins]
    have hcnt : ((routerBA 49).signal_counter_ + 1) % USIZE = 1 := by
      norm_num [routerBA, USIZE]
    rw [hcnt]
    rfl

theorem routerSeq_zero : routerSeq 0 = routerA0 := by
  show ((Router.initRouter.add_watched_pair "B" "A").process_tick_cross tickA 7 9).2 =
    routerA0
  rw [run_stepA]

theorem routerSeq_eq : ∀ n, 1 ≤ n → n ≤ 49 → routerSeq n = routerBA n := by
  intro n
  induction n with
  | zero =>
    intro h1 _
    omega
  | succ m ih =>
    intro _ h49
    rcases Nat.eq_zero_or_pos m with hm | hm
    · subst hm
      show ((routerSeq 0).process_tick_cross tickB 7 9).2 = routerBA 1
      rw [routerSeq_zero, run_step1]
    · show ((routerSeq m).process_tick_cross tickB 7 9).2 = routerBA (m + 1)
      rw [ih hm (by omega), run_stepB_warm m (by omega)]

/-- Counterexample to C6 as stated: after `add_watched_pair("B", "A")`,
one A tick and fifty B ticks, the emitted CORRELATION_BREAK event has
`primary_symbol = "B"` and `secondary_symbol = "A"`, although "A" is the
lexicographically smaller symbol of the pair. -/
theorem claim_C6_pair_event_symbol_order_counterexample :
    ((routerSeq 49).process_tick_cross tickB 7 9).1.map
      (fun e => (e.primary_symbol, e.secondary_symbol, e.event_type)) =
      [("B", "A", SignalType.CORRELATION_BREAK)] ∧
    ("A" : String) < "B" := by
  constructor
  · rw [routerSeq_eq 49 (by norm_num) (by norm_num), run_stepB_fire]
    rfl
  · rw [String.lt_iff_toList_lt]
    decide

/-- Witness for the amended C6 on the concrete run: the emitted event's
symbol pair ("B", "A") is exactly the registered pair. -/
theorem claim_C6_pair_event_symbol_order_witness :
    evBA ∈ ((routerSeq 49).process_tick_cross tickB 7 9).1 ∧
    (evBA.event_type = SignalType.CORRELATION_BREAK ∧
     (evBA.primary_symbol, evBA.secondary_symbol) ∈ (routerSeq 49).watched_pairs_) := by
  have hmem : evBA ∈ ((routerSeq 49).process_tick_cross tickB 7 9).1 := by
    rw [routerSeq_eq 49 (by norm_num) (by norm_num), run_stepB_fire]
    exact List.mem_singleton.2 rfl
  exact ⟨hmem, claim_C6_pair_event_symbol_order (routerSeq 49) tickB 7 9 evBA hmem⟩

/-- **C7.** `event_time` of every emitted `SignalEvent` is the
`steady_clock::now()` value read when the event object is constructed
inside `emit_signal` (and `generation_time` the second read) — the
triggering tick's `timestamp` is never copied into the event: in the
concrete run the emitted event has `event_time = 7` (the emission clock)
while the triggering B tick has `timestamp = 100`. -/
theorem claim_C7_event_time_from_emission_clock :
    (∀ (r : Router) (type : SignalType) (primary secondary : String)
        (strength conf : ℝ) (now_c now_g : ℕ),
      (r.emit_signal type primary secondary strength conf now_c now_g).1.event_time =
        now_c ∧
      (r.emit_signal type primary secondary strength conf now_c now_g).1.generation_time =
        now_g) ∧
    ((routerSeq 49).process_tick_cross tickB 7 9).1.map (fun e => e.event_time) = [7] ∧
    tickB.timestamp = 100 ∧ (7 : ℕ) ≠ 100 := by
  refine ⟨fun r type primary secondary strength conf now_c now_g => ⟨rfl, rfl⟩, ?_, rfl,
    by norm_num⟩
  rw [routerSeq_eq 49 (by norm_num) (by norm_num), run_stepB_fire]
  rfl
